import Mathlib

set_option maxRecDepth 20000

/-
  Verification of the Beth Yw? Welsh statistics data-analysis tool.

  The development shallowly embeds the C++ data model and the operations the
  claims are about:
    * `Measure`   — measure.h / measure.cpp (the primary document of measure.cpp);
    * `Area`      — area.h / the two Area implementations (src/unnamed/part_001
                    and src/unnamed/part_002);
    * `Areas.*`   — areas.cpp (setArea, toJSON, the row handling of the two CSV
                    parsers and the row-filter logic of the JSON parser).

  Modelling conventions, used throughout:
    * `std::string` is modelled as `List Char` (`LStr`); `std::tolower` as an
      ASCII lowercase map (bytes outside A–Z are unchanged, which is the
      de-facto behaviour for the UTF-8 data handled by the program).
    * `std::map<K,V>` is modelled as an association list with unique keys,
      together with `mapFind` / `mapInsert` (insert-if-absent, like
      `std::map::insert`) / `mapUpdate` (write through an iterator).  The
      C++ keeps the entries ordered by key; concrete inputs in the theorems
      below are chosen so that insertion order coincides with key order, and
      universal theorems quantify over every entry order.
    * The program pervasively tests membership with the idiom
      `m.find(key)->first == key`.  When the key is absent this dereferences
      the end iterator (undefined behaviour in C++); the whole program relies
      on the comparison then failing, and the model renders the idiom as a
      plain membership test.
    * `double` values are modelled as `ℚ`.  All arithmetic reached by the
      claims is exact in `double` as well.  The two operations a finite `ℚ`
      cannot express — dereferencing the first/last element of an empty map
      and a division whose result is not a finite number (`0.0/0 = NaN`,
      `x/0.0 = inf`) — are surfaced as explicit `DoubleHazard` errors.
    * C++ exceptions are modelled with `Except`.
-/

abbrev LStr := List Char

/-- `std::tolower` on one character: ASCII A–Z is mapped to a–z, everything
else (including the bytes of UTF-8 continuation sequences) is unchanged. -/
def toLowerChar (c : Char) : Char :=
  if 'A' ≤ c ∧ c ≤ 'Z' then Char.ofNat (c.toNat + 32) else c

/-- The per-character lowercase loop `for (it = s.begin(); ...) *it = std::tolower(*it)`. -/
def toLowerStr (s : LStr) : LStr := s.map toLowerChar

/-- C `isalpha` in the C locale: ASCII letters only. -/
def isAlphaChar (c : Char) : Bool :=
  (decide ('A' ≤ c) && decide (c ≤ 'Z')) || (decide ('a' ≤ c) && decide (c ≤ 'z'))

/-- `std::map::find` (value part): the first entry with the given key. -/
def mapFind {κ V : Type} [DecidableEq κ] (k : κ) : List (κ × V) → Option V
  | [] => none
  | p :: t => if p.1 = k then some p.2 else mapFind k t

/-- The membership idiom `m.find(key)->first == key` (see the header comment
about its undefined-behaviour caveat). -/
def mapContains {κ V : Type} [DecidableEq κ] (k : κ) (l : List (κ × V)) : Bool :=
  (mapFind k l).isSome

/-- `std::map::insert({k, v})`: inserts only when the key is absent. -/
def mapInsert {κ V : Type} [DecidableEq κ] (k : κ) (v : V) (l : List (κ × V)) :
    List (κ × V) :=
  if mapContains k l then l else l ++ [(k, v)]

/-- Writing through an iterator obtained from `find`, `it->second = v`:
replaces the value of the (first) entry with the given key, no effect when
the key is absent. -/
def mapUpdate {κ V : Type} [DecidableEq κ] (k : κ) (v : V) : List (κ × V) → List (κ × V)
  | [] => []
  | p :: t => if p.1 = k then (p.1, v) :: t else p :: mapUpdate k v t

/-- Does `needle` occur at the very start of `hay`? (helper for `occurs`). -/
def matchesAt : LStr → LStr → Bool
  | [], _ => true
  | _ :: _, [] => false
  | a :: as, b :: bs => (a == b) && matchesAt as bs

/-- `hay.find(needle) != std::string::npos`: `needle` occurs as a contiguous
substring of `hay` (the empty needle always occurs). -/
def occurs (needle : LStr) : LStr → Bool
  | [] => needle.isEmpty
  | b :: t => matchesAt needle (b :: t) || occurs needle t

/-- The hazards a `double` computation of this program can run into, which a
finite rational cannot represent: dereferencing the begin/end iterator of an
empty map, and a division producing a non-finite value (`0.0/0` is NaN,
`x/0.0` is an infinity). -/
inductive DoubleHazard
  | emptyDeref
  | divByZero
deriving DecidableEq

/-- The exceptions thrown by the embedded functions. -/
inductive CppError
  | invalidArgument (msg : LStr)
  | outOfRange (msg : LStr)
deriving DecidableEq

deriving instance DecidableEq for Except

/-- The `Measure` class (measure.h): a lowercased codename, a label and the
ordered year→value map. -/
structure Measure where
  codename : LStr
  label : LStr
  years : List (Int × ℚ)
deriving DecidableEq

/-- `Measure::Measure(codename, label)` (measure.cpp lines 43–52): the
codename is lowercased character by character; the year map starts empty. -/
def Measure.create (codename label : LStr) : Measure :=
  { codename := toLowerStr codename, label := label, years := [] }

/-- `Measure::getValue` (measure.cpp lines 140–153): membership check with
the find idiom, then return the stored value or throw
`std::out_of_range("No value found for year <year>")`. -/
def Measure.getValue (m : Measure) (key : Int) : Except CppError ℚ :=
  match mapFind key m.years with
  | some v => Except.ok v
  | none => Except.error (CppError.outOfRange
      (("No value found for year ").toList ++ (toString key).toList))

/-- `Measure::setValue` (measure.cpp lines 175–190).  The function copies the
year map into the local `existingYears`; when the year already exists it
assigns the new value into that local copy — the member `this->years` is
left untouched.  Only the absent-year branch mutates the member, via
`this->years.insert({key, value})`. -/
def Measure.setValue (m : Measure) (key : Int) (value : ℚ) : Measure :=
  if mapContains key m.years then m
  else { m with years := m.years ++ [(key, value)] }

/-- `Measure::getDifference` (measure.cpp lines 228–246).  `firstYear` is
`years.begin()->first` and `lastYear` is `(--years.end())->first` — the year
KEYS, not the stored values.  On an empty map `begin()` is the end iterator
and dereferencing it is the `emptyDeref` hazard. -/
def Measure.getDifference (m : Measure) : Except DoubleHazard ℚ :=
  match m.years with
  | [] => Except.error DoubleHazard.emptyDeref
  | p :: rest =>
      let firstYear : ℚ := (p.1 : ℚ)
      let lastYear : ℚ :=
        match rest.getLast? with
        | none => firstYear
        | some q => (q.1 : ℚ)
      Except.ok (if firstYear = lastYear then 0 else lastYear - firstYear)

/-- `Measure::getDifferenceAsPercentage` (measure.cpp lines 263–277):
`firstYear` is `years.begin()->second` (the first stored VALUE, hazard on an
empty map); when the difference is nonzero it computes
`difference / firstYear * 100` (a `divByZero` hazard when the first value is
zero, since `x/0.0` is not finite); the final
`percentage * 1000000 / 1000000` of the source is kept literally. -/
def Measure.getDifferenceAsPercentage (m : Measure) : Except DoubleHazard ℚ :=
  match m.years with
  | [] => Except.error DoubleHazard.emptyDeref
  | p :: _ =>
      match m.getDifference with
      | Except.error e => Except.error e
      | Except.ok difference =>
          if difference = 0 then Except.ok ((0 : ℚ) * 1000000 / 1000000)
          else if p.2 = 0 then Except.error DoubleHazard.divByZero
          else Except.ok (difference / p.2 * 100 * 1000000 / 1000000)

/-- `Measure::getAverage` (measure.cpp lines 293–306): sums all values, then
divides by `years.size()`.  With zero years this is `0.0 / 0`, i.e. NaN —
the `divByZero` hazard. -/
def Measure.getAverage (m : Measure) : Except DoubleHazard ℚ :=
  let total := m.years.foldl (fun acc p => acc + p.2) 0
  if m.years.length = 0 then Except.error DoubleHazard.divByZero
  else Except.ok (total / (m.years.length : ℚ))

/-- The `Area` class (area.h): authority code, language→name map,
measure-code→Measure map. -/
structure Area where
  local_authority_code : LStr
  languages : List (LStr × LStr)
  measures : List (LStr × Measure)
deriving DecidableEq

/-- `Area::Area(localAuthorityCode)` (both implementations). -/
def Area.create (code : LStr) : Area :=
  { local_authority_code := code, languages := [], measures := [] }

/-- The message of the `std::invalid_argument` thrown by `Area::setName`. -/
def setNameMsg : LStr :=
  ("Area::setName: Language code must be three alphabetical letters only").toList

/-- `Area::setName` (src/unnamed/part_002 lines 110–133): throw unless the
language tag is exactly three alphabetic characters; lowercase the tag; then
`languages.insert({lang, name})` — an insert that does NOT overwrite an
existing entry. -/
def Area.setName (a : Area) (lang name : LStr) : Except CppError Area :=
  if lang.length ≠ 3 then Except.error (CppError.invalidArgument setNameMsg)
  else if !(lang.all isAlphaChar) then Except.error (CppError.invalidArgument setNameMsg)
  else Except.ok { a with languages := mapInsert (toLowerStr lang) name a.languages }

/-- `Area::getMeasure` (src/unnamed/part_002 lines 157–168): a loop comparing
the requested key with each stored key — a CASE-SENSITIVE lookup (the
implementation in src/unnamed/part_001 lines 172–185 behaves identically);
on failure it throws `std::out_of_range("No measure found matching <key>")`. -/
def Area.getMeasure (a : Area) (key : LStr) : Except CppError Measure :=
  match mapFind key a.measures with
  | some m => Except.ok m
  | none => Except.error (CppError.outOfRange (("No measure found matching ").toList ++ key))

/-- The nested merge loops of `Area::setMeasure` (src/unnamed/part_002 lines
216–228): `newYears` and `existingYears` are snapshots taken before the
loops; for every new entry `years1` and every snapshot entry `years2` with a
different year, `it->second.setValue(years1->first, years1->second)` is
executed on the stored measure. -/
def Measure.mergeLoop (stored incoming : Measure) : Measure :=
  let existingYears := stored.years
  incoming.years.foldl
    (fun acc p =>
      existingYears.foldl
        (fun acc2 q => if p.1 ≠ q.1 then acc2.setValue p.1 p.2 else acc2) acc)
    stored

/-- The effect of `Area::setMeasure` (src/unnamed/part_002 lines 200–233) on
the measure map: lowercase the key; scan the map — on a key match, return
unchanged when the stored measure `==` the incoming one, otherwise run the
nested merge loops on the stored entry; finally `measures.insert({key,
measure})`, which only inserts when the key is absent (in the merged branch
the key is present, so that insert is a no-op and is folded into
`mapUpdate`). -/
def setMeasureMap (ms : List (LStr × Measure)) (key0 : LStr) (measure : Measure) :
    List (LStr × Measure) :=
  let key := toLowerStr key0
  match mapFind key ms with
  | some stored =>
      if stored = measure then ms
      else mapUpdate key (stored.mergeLoop measure) ms
  | none => ms ++ [(key, measure)]

/-- `Area::setMeasure` (src/unnamed/part_002 lines 200–233). -/
def Area.setMeasure (a : Area) (key : LStr) (measure : Measure) : Area :=
  { a with measures := setMeasureMap a.measures key measure }

/-- `Area::setMeasure` of the other Area implementation (src/unnamed/part_001
lines 217–243): lowercase the key; when the key exists, call
`this->measures.find(key)->second.setValue(year, value)` for every entry of
the year map of the incoming measure; otherwise insert the incoming measure. -/
def Area.setMeasureAlt (a : Area) (key0 : LStr) (measure : Measure) : Area :=
  let key := toLowerStr key0
  match mapFind key a.measures with
  | some stored =>
      let merged := measure.years.foldl (fun st p => st.setValue p.1 p.2) stored
      { a with measures := mapUpdate key merged a.measures }
  | none => { a with measures := a.measures ++ [(key, measure)] }

/-- The `AreasContainer` alias of areas.h: `std::map<std::string, Area>`. -/
abbrev AreasContainer := List (LStr × Area)

/-- The name-merging loop of `Areas::setArea` (areas.cpp lines 84–87): the
`setName` of the stored area is called for every language entry of the incoming
area.  `setName` validates before mutating, so when it throws, the names
processed so far are kept and the exception escapes. -/
def mergeNames (ar : Area) : List (LStr × LStr) → Area × Option CppError
  | [] => (ar, none)
  | p :: rest =>
      match ar.setName p.1 p.2 with
      | Except.ok ar2 => mergeNames ar2 rest
      | Except.error e => (ar, some e)

/-- The measure-merging loop of `Areas::setArea` (areas.cpp lines 89–92):
`setMeasure` of the stored area is called for every measure entry of the
incoming area. -/
def mergeMeasures (ar : Area) (ms : List (LStr × Measure)) : Area :=
  ms.foldl (fun acc p => acc.setMeasure p.1 p.2) ar

/-- `Areas::setArea` (areas.cpp lines 72–98): when the key exists, upsert
every name and merge every measure of the incoming area into the stored one;
otherwise `areas.insert({key, area})`.  The second component carries the
exception `setName` may throw mid-merge. -/
def Areas.setArea (areas : AreasContainer) (key : LStr) (area : Area) :
    AreasContainer × Option CppError :=
  match mapFind key areas with
  | some stored =>
      match mergeNames stored area.languages with
      | (st1, some e) => (mapUpdate key st1 areas, some e)
      | (st1, none) => (mapUpdate key (mergeMeasures st1 area.measures) areas, none)
  | none => (areas ++ [(key, area)], none)

/-- One entry of the structured export: the `{"measures": ..., "names": ...}`
object built for one region code. -/
structure AreaJSON where
  measures : List (LStr × List (LStr × ℚ))
  names : List (LStr × LStr)
deriving DecidableEq

/-- `nlohmann::json` `operator[]` followed by assignment: insert the key or
overwrite its value. -/
def objSet {V : Type} (k : LStr) (v : V) : List (LStr × V) → List (LStr × V)
  | [] => [(k, v)]
  | p :: t => if p.1 = k then (p.1, v) :: t else p :: objSet k v t

/-- `Areas::toJSON` (areas.cpp lines 1010–1051).  The json objects `names`,
`years` and `measuresjson` are declared OUTSIDE the region loop and are never
cleared, so the entry of every region is built from the accumulated state of all
regions (and measures) processed before it.  The empty collection yields the
empty object (`json({})`, dumped as the literal `{}`). -/
def Areas.toJSON (areas : AreasContainer) : List (LStr × AreaJSON) :=
  (areas.foldl
    (fun st p =>
      let names := p.2.languages.foldl (fun ns q => objSet q.1 q.2 ns) st.1
      let ym := p.2.measures.foldl
        (fun (acc : List (LStr × ℚ) × List (LStr × List (LStr × ℚ))) q =>
          let years := q.2.years.foldl
            (fun ys r => objSet ((toString r.1).toList) r.2 ys) acc.1
          (years, objSet q.1 years acc.2))
        (st.2.1, st.2.2.1)
      (names, ym.1, ym.2, objSet p.1 ⟨ym.2, names⟩ st.2.2.2))
    (([], [], [], []) :
      List (LStr × LStr) × List (LStr × ℚ) × List (LStr × List (LStr × ℚ)) ×
        List (LStr × AreaJSON))).2.2.2

/-- The per-row Measure construction of `Areas::populateFromAuthorityByYearCSV`
(areas.cpp lines 620 and 710–730), starting from the already-parsed header
year list (the `years` map, whose keys are the header years) and the value
vector of the row.  `measure.setValue(it->first, values[i])` is executed only
inside the branch guarded by `startYear != 0 && endYear != 0`, and only for
years inside the inclusive range; with a null filter, or with the sentinel
`<0,0>`, no value is ever recorded into the measure.  The map iteration index
`i` pairs the i-th header year with `values[i]`, which the model renders as a
zip. -/
def wideRowMeasure (code label : LStr) (headerYears : List Int) (values : List ℚ)
    (yearsFilter : Option (Nat × Nat)) : Measure :=
  let measure := Measure.create code label
  match yearsFilter with
  | none => measure
  | some f =>
      if f.1 ≠ 0 ∧ f.2 ≠ 0 then
        (headerYears.zip values).foldl
          (fun m p =>
            if (f.1 : Int) ≤ p.1 ∧ p.1 ≤ (f.2 : Int) then m.setValue p.1 p.2 else m)
          measure
      else measure

/-- The field extraction of `Areas::populateFromAuthorityCodeCSV` (areas.cpp
lines 222–226): the authority code is the text before the first comma, the
English name the text between the first and second commas, the Welsh name the
rest.  Faithful to the `find`/`substr` arithmetic for every line containing
at least two commas (which the reference-CSV lines of the claims do). -/
def refLineFields (line : LStr) : LStr × LStr × LStr :=
  let authorityCode := line.takeWhile (fun c => c != ',')
  let rest := (line.dropWhile (fun c => c != ',')).drop 1
  let eng := rest.takeWhile (fun c => c != ',')
  let cym := (rest.dropWhile (fun c => c != ',')).drop 1
  (authorityCode, eng, cym)

/-- One iteration condition of the reference-CSV filter loop (areas.cpp lines
245–259): the row is a match for the token unless the token occurs in neither
lowercased name and differs from the raw code. -/
def refTokenMatch (t code engLower cymLower : LStr) : Bool :=
  occurs t engLower || occurs t cymLower || code == t

/-- The filter loop of `Areas::populateFromAuthorityCodeCSV` (areas.cpp lines
245–259): `valid` is set to false and the loop continues on a non-match, and
set to true with an immediate break on a match. -/
def refFilterLoop (code engLower cymLower : LStr) : List LStr → Bool → Bool
  | [], valid => valid
  | t :: ts, _ =>
      if refTokenMatch t code engLower cymLower then true
      else refFilterLoop code engLower cymLower ts false

/-- Acceptance of one parsed reference-CSV row (areas.cpp lines 221–265):
`valid` starts true; with a non-empty filter the names are lowercased and the
filter loop decides. -/
def acceptRefRow (filter : List LStr) (code eng cym : LStr) : Bool :=
  if filter.isEmpty then true
  else refFilterLoop code (toLowerStr eng) (toLowerStr cym) filter true

/-- Acceptance of one raw reference-CSV line (areas.cpp lines 219–265): split
the fields, then apply the filter. -/
def acceptRefLine (filter : List LStr) (line : LStr) : Bool :=
  let f := refLineFields line
  acceptRefRow filter f.1 f.2.1 f.2.2

/-- The three area-filter flags of `Areas::populateFromWelshStatsJSON`
(areas.cpp lines 377–379 and 458–479).  All start true.  With a non-empty
filter, `areaFoundWithCode` becomes an exact `std::find` test, while
`areaFoundWithEnglish` / `areaFoundWithWelsh` are OVERWRITTEN on every
iteration of the token loop, so only the token iterated last counts
(`std::unordered_set` iteration order; the model takes the filter in its
iteration order). -/
def jsonAreaFlags (filter : List LStr) (code eng welsh : LStr) : Bool × Bool × Bool :=
  if filter.isEmpty then (true, true, true)
  else
    let engLower := toLowerStr eng
    let welshLower := toLowerStr welsh
    (filter.contains code,
     filter.foldl (fun _ t => occurs t engLower) true,
     filter.foldl (fun _ t => occurs t welshLower) true)

/-- The row-acceptance decision of `Areas::populateFromWelshStatsJSON`
(areas.cpp lines 458–505): the area flags, the exact measure-filter test on
the constructor-lowercased codename (line 483–484), the inclusive year-range
test with the `<0,0>` sentinel (lines 487–499), combined as
`(welsh || code || english) && measureFound && yearFound` (line 501). -/
def jsonRowAccept (areasFilter measuresFilter : List LStr)
    (yearsFilter : Option (Nat × Nat)) (code eng welsh measureCodename : LStr)
    (year : Int) : Bool :=
  let af := jsonAreaFlags areasFilter code eng welsh
  let measureFound :=
    if measuresFilter.isEmpty then true
    else measuresFilter.contains (toLowerStr measureCodename)
  let yearFound :=
    match yearsFilter with
    | none => true
    | some f =>
        if f.1 ≠ 0 ∧ f.2 ≠ 0 then
          !(decide (year < (f.1 : Int)) || decide ((f.2 : Int) < year))
        else true
  (af.2.2 || af.1 || af.2.1) && measureFound && yearFound

/-- The language-map effect of the name-merging loop of `Areas::setArea`
under valid language tags: a fold of no-overwrite inserts keyed by the
lowercased tag (proved equal to `mergeNames` in `mergeNames_ok`). -/
def langFold (L : List (LStr × LStr)) (ls : List (LStr × LStr)) : List (LStr × LStr) :=
  ls.foldl (fun acc p => mapInsert (toLowerStr p.1) p.2 acc) L

/-- The measure-map effect of the measure-merging loop of `Areas::setArea`:
a fold of `setMeasureMap` (proved equal to `mergeMeasures` in
`mergeMeasures_measures`). -/
def measFold (A : List (LStr × Measure)) (ms : List (LStr × Measure)) :
    List (LStr × Measure) :=
  ms.foldl (fun acc p => setMeasureMap acc p.1 p.2) A

/- Concrete data used by the evaluation theorems below. -/

/-- The measure `{1990:100.0, 2010:150.0}` of the worked example in the spec,
built through the API (values inserted in ascending year order, matching the
`std::map` layout). -/
def exC1Measure : Measure :=
  ((Measure.create (("Pop").toList) (("Population").toList)).setValue 1990 100).setValue
    2010 150

/-- A measure with zero recorded years. -/
def exEmptyMeasure : Measure :=
  Measure.create (("pop").toList) (("Population").toList)

/-- `setValue` applied twice to the same year: first 5, then 9. -/
def exC3Twice : Measure :=
  ((Measure.create (("pop").toList) (("Population").toList)).setValue 2000 5).setValue 2000 9

/-- The stored measure `{2000:5}` of the merge example. -/
def exC3Old : Measure :=
  (Measure.create (("pop").toList) (("Population").toList)).setValue 2000 5

/-- The incoming measure `{2000:9, 2001:10}` of the merge example. -/
def exC3New : Measure :=
  ((Measure.create (("pop").toList) (("Population").toList)).setValue 2000 9).setValue 2001 10

/-- The merge example of claim C3 run through `Area::setMeasure`
(src/unnamed/part_001): store `{2000:5}`, then merge `{2000:9, 2001:10}`. -/
def exC3Area : Area :=
  ((Area.create (("W06000001").toList)).setMeasureAlt (("pop").toList) exC3Old).setMeasureAlt
    (("pop").toList) exC3New

/-- A region carrying only a Welsh name. -/
def exC7A1 : Area :=
  { Area.create (("W06000001").toList) with
      languages := [((("cym").toList), (("Ynys Môn").toList))] }

/-- A region carrying only an English name. -/
def exC7A2 : Area :=
  { Area.create (("W06000002").toList) with
      languages := [((("eng").toList), (("Gwynedd").toList))] }

/-- A two-region collection (codes and language tags inserted in key order,
so the association lists coincide with the `std::map` layout). -/
def exC7Collection : AreasContainer :=
  [((("W06000001").toList), exC7A1), ((("W06000002").toList), exC7A2)]

/- ================= Theorems settling the claims ================= -/

/-- Claim C1: the claim states that `getDifference` returns the value stored
at the chronologically last year minus the value at the first year, 50.0 for
`{1990:100.0, 2010:150.0}`.  The code (measure.cpp lines 228–246) subtracts
the year KEYS instead (`begin()->first` and `(--end())->first`) and returns
2010 − 1990 = 20, contradicting its own doc comment ("The difference/change
in value from the first to the last year"). -/
theorem C1_getDifference_subtracts_year_keys :
    exC1Measure.getDifference = Except.ok 20 ∧ (20 : ℚ) ≠ 50 := by
  constructor
  · have h : exC1Measure.getDifference
        = Except.ok (if (((1990 : Int) : ℚ)) = (((2010 : Int) : ℚ)) then 0
            else (((2010 : Int) : ℚ)) - (((1990 : Int) : ℚ))) := rfl
    rw [h]
    norm_num
  · norm_num

/-- Claim C2: the claim states that for a Measure with zero recorded years,
`getAverage`, `getDifference` and `getDifferenceAsPercentage` all return 0
with no division by zero and no access to the first/last element of the
empty year map.  The code guards none of the three: `getAverage` computes
`total / years.size()` = `0.0/0` (NaN), and the other two dereference
`years.begin()` of the empty map (the end iterator). -/
theorem C2_empty_measure_hazards :
    exEmptyMeasure.getAverage = Except.error DoubleHazard.divByZero ∧
    exEmptyMeasure.getDifference = Except.error DoubleHazard.emptyDeref ∧
    exEmptyMeasure.getDifferenceAsPercentage = Except.error DoubleHazard.emptyDeref := by
  exact ⟨rfl, rfl, rfl⟩

/-- Claim C3: the claim states that `setValue` on an existing year replaces
the stored value, and that merging `{2000:5}` with incoming `{2000:9,
2001:10}` yields `{2000:9, 2001:10}`.  The code (measure.cpp lines 175–190)
assigns the new value into a LOCAL COPY of the year map, so the old value
survives: a second `setValue(2000, 9)` leaves `getValue(2000) = 5`, and the
merge of `Area::setMeasure` (src/unnamed/part_001), which replays the
incoming years through that broken `setValue`, yields `{2000:5, 2001:10}`. -/
theorem C3_setValue_keeps_old_value :
    exC3Twice.getValue 2000 = Except.ok 5 ∧
    (mapFind (("pop").toList) exC3Area.measures).map Measure.years
      = some [(2000, (5 : ℚ)), (2001, 10)] ∧
    (5 : ℚ) ≠ 9 := by
  refine ⟨rfl, rfl, by norm_num⟩

/-- Claim C5: the claim states that with the sentinel year filter `(0,0)` (or
no filter at all) the wide-format parser records every year/value pair of the
row.  In the code (areas.cpp lines 710–730) `measure.setValue` is only ever
executed inside the branch guarded by `startYear != 0 && endYear != 0`, so
under the sentinel — and under a null filter — NOTHING is recorded: the
constructed measure is empty, not the full `{1991:1, 1992:2, 1993:3}`. -/
theorem C5_sentinel_imports_nothing :
    (wideRowMeasure (("pop").toList) (("Population").toList) [1991, 1992, 1993]
        [1, 2, 3] (some (0, 0))).years = [] ∧
    (wideRowMeasure (("pop").toList) (("Population").toList) [1991, 1992, 1993]
        [1, 2, 3] none).years = [] ∧
    ([] : List (Int × ℚ)) ≠ [(1991, 1), (1992, 2), (1993, 3)] := by
  refine ⟨rfl, rfl, by simp⟩

/-- Claim C7: the claim states that the entry of each region in the structured
export contains exactly the names and measures of that region alone.  In
`Areas::toJSON` (areas.cpp lines 1010–1051) the `names`, `years` and
`measuresjson` objects live OUTSIDE the region loop and are never reset, so
the entry of the second region also contains the name entry of the first: for
regions `W06000001 {cym: Ynys Môn}` and `W06000002 {eng: Gwynedd}` the
export maps `W06000002` to a names object holding BOTH names.  (The empty
collection does export as the empty object.) -/
theorem C7_toJSON_leaks_names_across_regions :
    (mapFind (("W06000002").toList) (Areas.toJSON exC7Collection)).map AreaJSON.names
      = some [((("cym").toList), (("Ynys Môn").toList)),
              ((("eng").toList), (("Gwynedd").toList))] ∧
    (some [((("cym").toList), (("Ynys Môn").toList)),
           ((("eng").toList), (("Gwynedd").toList))] : Option (List (LStr × LStr)))
      ≠ some [((("eng").toList), (("Gwynedd").toList))] ∧
    Areas.toJSON [] = [] := by
  refine ⟨by decide, by decide, by decide⟩

/-- Claim C8 (counterexample): the claim asserts that the filter
`{"anglesey"}` accepts the literal reference-CSV line
`"Isle of Anglesey,Ynys Môn,W06000001"`.  The parser (areas.cpp lines
222–226) reads the REGION CODE from the first field, so for this literal
line the code is "Isle of Anglesey", the English name "Ynys Môn" and the
Welsh name "W06000001" — no field matches the token and the line is
rejected. -/
theorem C8_literal_example_line_rejected :
    acceptRefLine [(("anglesey").toList)]
      (("Isle of Anglesey,Ynys Môn,W06000001").toList) = false := by
  decide

/-- Claim C9 (counterexample): the claim asserts that one matching token
suffices regardless of the other tokens.  With the filter iterating
`{"anglesey", "zzz"}`, the token "anglesey" does occur in the lowercased
English name "isle of anglesey", yet the row is rejected, because the
name-match flags of `Areas::populateFromWelshStatsJSON` (areas.cpp lines
474–478) are overwritten on every loop iteration and only the last token
counts. -/
theorem C9_single_matching_token_insufficient :
    jsonRowAccept [(("anglesey").toList), (("zzz").toList)] [] none
        (("W06000001").toList) (("Isle of Anglesey").toList) (("Ynys Môn").toList)
        (("pop").toList) 1991 = false ∧
    occurs (("anglesey").toList) (toLowerStr (("Isle of Anglesey").toList)) = true := by
  refine ⟨by decide, by decide⟩

/-- The filter loop of the reference-CSV parser returns true exactly when
some token matches (break on first match), or when it never ran and the flag
was already true. -/
theorem refFilterLoop_true_iff (code engL cymL : LStr) (l : List LStr) (b : Bool) :
    refFilterLoop code engL cymL l b = true ↔
      ((∃ t ∈ l, refTokenMatch t code engL cymL = true) ∨ (l = [] ∧ b = true)) := by
  induction l generalizing b with
  | nil => simp [refFilterLoop]
  | cons t ts ih =>
      cases hb : refTokenMatch t code engL cymL with
      | true => simp [refFilterLoop, hb]
      | false => simp [refFilterLoop, hb, ih]

/-- Claim C8 (amended): a reference-CSV row is accepted iff the region filter
is empty or some filter token occurs in the lowercased English name, occurs
in the lowercased Welsh name, or equals the raw region code; the filter
`{"anglesey"}` accepts the Anglesey line — with the fields in the order the
parser reads them, `"W06000001,Isle of Anglesey,Ynys Môn"` — and rejects an
unrelated line. -/
theorem C8_region_filter_accept_iff :
    (∀ (filter : List LStr) (code eng cym : LStr),
      acceptRefRow filter code eng cym = true ↔
        (filter = [] ∨ ∃ t ∈ filter,
          occurs t (toLowerStr eng) = true ∨ occurs t (toLowerStr cym) = true ∨
            code = t)) ∧
    acceptRefLine [(("anglesey").toList)]
      (("W06000001,Isle of Anglesey,Ynys Môn").toList) = true ∧
    acceptRefLine [(("anglesey").toList)] (("W06000015,Cardiff,Caerdydd").toList) = false := by
  refine ⟨?_, by decide, by decide⟩
  intro filter code eng cym
  cases filter with
  | nil => simp [acceptRefRow]
  | cons f fs =>
      rw [acceptRefRow]
      rw [if_neg (by simp)]
      rw [refFilterLoop_true_iff]
      constructor
      · rintro (⟨t, ht, hm⟩ | ⟨habs, _⟩)
        · refine Or.inr ⟨t, ht, ?_⟩
          revert hm
          simp only [refTokenMatch, Bool.or_eq_true, beq_iff_eq]
          tauto
        · exact (List.cons_ne_nil f fs habs).elim
      · rintro (habs | ⟨t, ht, hm⟩)
        · exact (List.cons_ne_nil f fs habs).elim
        · refine Or.inl ⟨t, ht, ?_⟩
          revert hm
          simp only [refTokenMatch, Bool.or_eq_true, beq_iff_eq]
          tauto

/-- A fold whose accumulator is overwritten on every step returns the value
computed from the last element. -/
theorem foldl_overwrite (f : LStr → Bool) :
    ∀ (l : List LStr) (h : l ≠ []) (b : Bool), l.foldl (fun _ t => f t) b = f (l.getLast h)
  | [], h, _ => absurd rfl h
  | [t], _, _ => rfl
  | t :: t2 :: ts, _, b => by
      rw [List.foldl_cons]
      rw [foldl_overwrite f (t2 :: ts) (by simp) (f t)]
      simp [List.getLast_cons]

/-- Claim C9 (amended): with a non-empty region filter (and no measure or
year filter), the JSON-parser row acceptance equals: the lowercased Welsh
name contains the LAST-iterated filter token, or the code exactly equals some
token, or the lowercased English name contains the last-iterated token —
last-token-wins for the two name matches, not inclusive-any. -/
theorem C9_name_match_is_last_token_wins (l : List LStr) (h : l ≠ [])
    (code eng welsh mcode : LStr) (y : Int) :
    jsonRowAccept l [] none code eng welsh mcode y
      = (occurs (l.getLast h) (toLowerStr welsh) || l.contains code ||
         occurs (l.getLast h) (toLowerStr eng)) := by
  have hne : l.isEmpty = false := by
    cases l with
    | nil => exact absurd rfl h
    | cons a t => rfl
  unfold jsonRowAccept jsonAreaFlags
  rw [hne]
  simp only [Bool.false_eq_true, if_false, List.isEmpty_nil]
  rw [foldl_overwrite (fun t => occurs t (toLowerStr eng)) l h]
  rw [foldl_overwrite (fun t => occurs t (toLowerStr welsh)) l h]
  simp

/-- Witness for `C9_name_match_is_last_token_wins` at the filter
`["zzz", "anglesey"]` and the Anglesey row. -/
theorem C9_name_match_is_last_token_wins_witness :
    (([(("zzz").toList), (("anglesey").toList)] : List LStr) ≠ []) ∧
    jsonRowAccept [(("zzz").toList), (("anglesey").toList)] [] none
        (("W06000001").toList) (("Isle of Anglesey").toList) (("Ynys Môn").toList)
        (("pop").toList) 1991
      = (occurs ([(("zzz").toList), (("anglesey").toList)].getLast (by decide))
            (toLowerStr (("Ynys Môn").toList)) ||
         [(("zzz").toList), (("anglesey").toList)].contains (("W06000001").toList) ||
         occurs ([(("zzz").toList), (("anglesey").toList)].getLast (by decide))
            (toLowerStr (("Isle of Anglesey").toList))) :=
  ⟨by decide,
   C9_name_match_is_last_token_wins [(("zzz").toList), (("anglesey").toList)] (by decide)
     (("W06000001").toList) (("Isle of Anglesey").toList) (("Ynys Môn").toList)
     (("pop").toList) 1991⟩

/-- Looking a key up past a block in which it does not occur. -/
theorem mapFind_append_of_none {κ V : Type} [DecidableEq κ] (k : κ)
    (l1 l2 : List (κ × V)) (h : mapFind k l1 = none) :
    mapFind k (l1 ++ l2) = mapFind k l2 := by
  induction l1 with
  | nil => rfl
  | cons p t ih =>
      rw [mapFind] at h
      by_cases hp : p.1 = k
      · rw [if_pos hp] at h
        exact absurd h (by simp)
      · rw [if_neg hp] at h
        rw [List.cons_append, mapFind, if_neg hp]
        exact ih h

/-- A successful lookup is unaffected by entries appended behind it. -/
theorem mapFind_append_of_some {κ V : Type} [DecidableEq κ] (k : κ)
    (l1 l2 : List (κ × V)) (v : V) (h : mapFind k l1 = some v) :
    mapFind k (l1 ++ l2) = some v := by
  induction l1 with
  | nil => exact absurd h (by simp [mapFind])
  | cons p t ih =>
      rw [mapFind] at h
      by_cases hp : p.1 = k
      · rw [if_pos hp] at h
        rw [List.cons_append, mapFind, if_pos hp]
        exact h
      · rw [if_neg hp] at h
        rw [List.cons_append, mapFind, if_neg hp]
        exact ih h

/-- The recording loop of the wide-format parser: folding the guarded
`setValue` over year/value pairs whose years are distinct and absent from the
accumulator appends exactly the in-range pairs, in order. -/
theorem wideFold_years (s e : Nat) (l : List (Int × ℚ)) :
    ∀ m : Measure, (l.map Prod.fst).Nodup →
      (∀ p ∈ l, mapFind p.1 m.years = none) →
      (l.foldl
          (fun m p =>
            if (s : Int) ≤ p.1 ∧ p.1 ≤ (e : Int) then m.setValue p.1 p.2 else m) m).years
        = m.years ++ l.filter (fun p => decide ((s : Int) ≤ p.1 ∧ p.1 ≤ (e : Int))) := by
  induction l with
  | nil =>
      intro m _ _
      simp
  | cons p t ih =>
      intro m hnd hnone
      rw [List.foldl_cons]
      have hnd2 : (t.map Prod.fst).Nodup := (List.nodup_cons.mp hnd).2
      have hmem : p.1 ∉ t.map Prod.fst := (List.nodup_cons.mp hnd).1
      by_cases hin : (s : Int) ≤ p.1 ∧ p.1 ≤ (e : Int)
      · rw [if_pos hin]
        have hc : mapContains p.1 m.years = false := by
          rw [mapContains, hnone p (List.mem_cons_self p t)]
          rfl
        have hset : m.setValue p.1 p.2 = { m with years := m.years ++ [(p.1, p.2)] } := by
          rw [Measure.setValue, hc]
          simp
        rw [hset]
        have hnone2 : ∀ q ∈ t,
            mapFind q.1 ({ m with years := m.years ++ [(p.1, p.2)] } : Measure).years
              = none := by
          intro q hq
          have hq1 : mapFind q.1 m.years = none := hnone q (List.mem_cons_of_mem p hq)
          have hqne : p.1 ≠ q.1 := by
            intro hcontra
            exact hmem (hcontra ▸ List.mem_map_of_mem Prod.fst hq)
          show mapFind q.1 (m.years ++ [(p.1, p.2)]) = none
          rw [mapFind_append_of_none q.1 m.years _ hq1]
          simp [mapFind, hqne]
        rw [ih _ hnd2 hnone2]
        rw [List.filter_cons_of_pos (by exact decide_eq_true hin)]
        simp
      · rw [if_neg hin]
        rw [ih _ hnd2 (fun q hq => hnone q (List.mem_cons_of_mem p hq))]
        rw [List.filter_cons_of_neg (by simpa using hin)]

/-- Claim C6: with an active year-range filter whose bounds are both nonzero,
the wide-format row loop records into the constructed Measure exactly the
in-range years paired with the values of the row — years outside the range are
absent, not stored as zero. -/
theorem C6_year_filter_records_exactly_in_range
    (code label : LStr) (ys : List Int) (vs : List ℚ) (s e : Nat)
    (hs : s ≠ 0) (he : e ≠ 0) (hnd : ys.Nodup) (hlen : ys.length ≤ vs.length) :
    (wideRowMeasure code label ys vs (some (s, e))).years
      = (ys.zip vs).filter (fun p => decide ((s : Int) ≤ p.1 ∧ p.1 ≤ (e : Int))) := by
  have hred : wideRowMeasure code label ys vs (some (s, e))
      = if s ≠ 0 ∧ e ≠ 0 then
          (ys.zip vs).foldl
            (fun m p =>
              if (s : Int) ≤ p.1 ∧ p.1 ≤ (e : Int) then m.setValue p.1 p.2 else m)
            (Measure.create code label)
        else Measure.create code label := rfl
  rw [hred, if_pos ⟨hs, he⟩]
  have hkeys : ((ys.zip vs).map Prod.fst).Nodup := by
    rw [List.map_fst_zip ys vs hlen]
    exact hnd
  have hnone : ∀ p ∈ ys.zip vs, mapFind p.1 (Measure.create code label).years = none :=
    fun p _ => rfl
  rw [wideFold_years s e (ys.zip vs) (Measure.create code label) hkeys hnone]
  simp [Measure.create]

/-- Witness for `C6_year_filter_records_exactly_in_range`: the worked
example of the spec — years 1991–1993, values `[1,2,3]`, filter `(1992,1993)` — yields
exactly `{1992:2, 1993:3}`. -/
theorem C6_year_filter_records_exactly_in_range_witness :
    ((1992 : Nat) ≠ 0 ∧ (1993 : Nat) ≠ 0 ∧ ([1991, 1992, 1993] : List Int).Nodup ∧
      ([1991, 1992, 1993] : List Int).length ≤ ([(1 : ℚ), 2, 3]).length) ∧
    (wideRowMeasure (("pop").toList) (("Population").toList) [1991, 1992, 1993]
        [1, 2, 3] (some (1992, 1993))).years
      = (([1991, 1992, 1993] : List Int).zip [(1 : ℚ), 2, 3]).filter
          (fun p => decide ((1992 : Int) ≤ p.1 ∧ p.1 ≤ (1993 : Int))) ∧
    (wideRowMeasure (("pop").toList) (("Population").toList) [1991, 1992, 1993]
        [1, 2, 3] (some (1992, 1993))).years = [(1992, (2 : ℚ)), (1993, 3)] :=
  ⟨⟨by decide, by decide, by decide, by decide⟩,
   C6_year_filter_records_exactly_in_range (("pop").toList) (("Population").toList)
     [1991, 1992, 1993] [1, 2, 3] 1992 1993 (by decide) (by decide) (by decide) (by decide),
   rfl⟩

/-- Updating a present key makes the lookup return the new value. -/
theorem mapFind_mapUpdate_self {κ V : Type} [DecidableEq κ] (k : κ) (v : V)
    (l : List (κ × V)) (h : mapContains k l = true) :
    mapFind k (mapUpdate k v l) = some v := by
  induction l with
  | nil => exact absurd h (by simp [mapContains, mapFind])
  | cons p t ih =>
      by_cases hp : p.1 = k
      · rw [mapUpdate, if_pos hp, mapFind, if_pos hp]
      · rw [mapUpdate, if_neg hp, mapFind, if_neg hp]
        rw [mapContains, mapFind, if_neg hp] at h
        exact ih h

/-- Updating one key leaves lookups of any other key unchanged. -/
theorem mapFind_mapUpdate_ne {κ V : Type} [DecidableEq κ] (k k2 : κ) (v : V)
    (l : List (κ × V)) (h : k ≠ k2) :
    mapFind k (mapUpdate k2 v l) = mapFind k l := by
  induction l with
  | nil => rfl
  | cons p t ih =>
      by_cases hp : p.1 = k2
      · rw [mapUpdate, if_pos hp, mapFind, mapFind, if_neg (hp ▸ fun hc => h hc.symm),
          if_neg (fun hc : p.1 = k => h (hc ▸ hp ▸ rfl))]
      · rw [mapUpdate, if_neg hp, mapFind, mapFind]
        by_cases hpk : p.1 = k
        · rw [if_pos hpk, if_pos hpk]
        · rw [if_neg hpk, if_neg hpk]
          exact ih

/-- A successful lookup exhibits a member of the list. -/
theorem mapFind_some_mem {κ V : Type} [DecidableEq κ] (k : κ) (v : V)
    (l : List (κ × V)) (h : mapFind k l = some v) : (k, v) ∈ l := by
  induction l with
  | nil => exact absurd h (by simp [mapFind])
  | cons p t ih =>
      rw [mapFind] at h
      by_cases hp : p.1 = k
      · rw [if_pos hp] at h
        have hv : v = p.2 := by
          cases h
          rfl
        rw [hv, ← hp]
        exact List.mem_cons_self p t
      · rw [if_neg hp] at h
        exact List.mem_cons_of_mem p (ih h)

/-- Claim C10: `Area::setMeasure` stores the measure under the LOWERCASED
code, while `Area::getMeasure` looks the code up case-sensitively.  So on an
Area whose stored measure keys are lowercase (the invariant `setMeasure`
itself maintains), after `setMeasure` with a mixed-case code, `getMeasure`
with the original code throws `out_of_range("No measure found matching
<codename>")`, and `getMeasure` with the lowercased code succeeds.
`getMeasure` reads the map without mutating it, so the Area is unchanged in
both cases. -/
theorem C10_getMeasure_is_case_sensitive (a : Area) (code : LStr) (m : Measure)
    (hkeys : ∀ p ∈ a.measures, toLowerStr p.1 = p.1)
    (hmix : toLowerStr code ≠ code) :
    (a.setMeasure code m).getMeasure code
      = Except.error (CppError.outOfRange
          ((("No measure found matching ").toList ++ code))) ∧
    ∃ m2, (a.setMeasure code m).getMeasure (toLowerStr code) = Except.ok m2 := by
  have hnone : mapFind code a.measures = none := by
    cases hfa : mapFind code a.measures with
    | none => rfl
    | some v =>
        exact absurd (hkeys (code, v) (mapFind_some_mem code v a.measures hfa)) hmix
  have hti : (a.setMeasure code m).measures = setMeasureMap a.measures code m := rfl
  cases hfk : mapFind (toLowerStr code) a.measures with
  | some stored =>
      by_cases heq : stored = m
      · have hres : setMeasureMap a.measures code m = a.measures := by
          rw [setMeasureMap]
          simp only [hfk, heq, eq_self_iff_true, if_true]
        constructor
        · rw [Area.getMeasure, hti, hres, hnone]
        · refine ⟨m, ?_⟩
          rw [Area.getMeasure, hti, hres, hfk, heq]
      · have hres : setMeasureMap a.measures code m
            = mapUpdate (toLowerStr code) (stored.mergeLoop m) a.measures := by
          rw [setMeasureMap]
          simp only [hfk, if_neg heq]
        constructor
        · rw [Area.getMeasure, hti, hres,
            mapFind_mapUpdate_ne code (toLowerStr code) _ a.measures
              (fun hc => hmix hc.symm), hnone]
        · refine ⟨stored.mergeLoop m, ?_⟩
          rw [Area.getMeasure, hti, hres,
            mapFind_mapUpdate_self (toLowerStr code) _ a.measures (by rw [mapContains, hfk]; rfl)]
  | none =>
      have hres : setMeasureMap a.measures code m
          = a.measures ++ [(toLowerStr code, m)] := by
        rw [setMeasureMap]
        simp only [hfk]
      constructor
      · rw [Area.getMeasure, hti, hres, mapFind_append_of_none code a.measures _ hnone,
          mapFind, if_neg hmix]
        rfl
      · refine ⟨m, ?_⟩
        rw [Area.getMeasure, hti, hres,
          mapFind_append_of_none (toLowerStr code) a.measures _ hfk, mapFind, if_pos rfl]

/-- Witness for `C10_getMeasure_is_case_sensitive` on a fresh Area and the
code "Pop". -/
theorem C10_getMeasure_is_case_sensitive_witness :
    ((∀ p ∈ (Area.create (("W06000001").toList)).measures, toLowerStr p.1 = p.1) ∧
      toLowerStr (("Pop").toList) ≠ (("Pop").toList)) ∧
    (((Area.create (("W06000001").toList)).setMeasure (("Pop").toList)
          (Measure.create (("Pop").toList) (("Population").toList))).getMeasure
        (("Pop").toList)
      = Except.error (CppError.outOfRange
          ((("No measure found matching ").toList ++ (("Pop").toList)))) ∧
      ∃ m2, ((Area.create (("W06000001").toList)).setMeasure (("Pop").toList)
            (Measure.create (("Pop").toList) (("Population").toList))).getMeasure
          (toLowerStr (("Pop").toList)) = Except.ok m2) :=
  ⟨⟨by decide, by decide⟩,
   C10_getMeasure_is_case_sensitive (Area.create (("W06000001").toList)) (("Pop").toList)
     (Measure.create (("Pop").toList) (("Population").toList)) (by decide) (by decide)⟩

/-- `std::map::insert` is a no-op on a present key. -/
theorem mapInsert_of_contains {κ V : Type} [DecidableEq κ] (k : κ) (v : V)
    (l : List (κ × V)) (h : mapContains k l = true) : mapInsert k v l = l := by
  rw [mapInsert, if_pos h]

/-- An absent key has a `none` lookup. -/
theorem mapFind_eq_none_of_not_contains {κ V : Type} [DecidableEq κ] (k : κ)
    (l : List (κ × V)) (h : ¬ mapContains k l = true) : mapFind k l = none := by
  cases hf : mapFind k l with
  | none => rfl
  | some v => exact absurd (by rw [mapContains, hf]; rfl) h

/-- After inserting a key, the key is present. -/
theorem mapContains_mapInsert_self {κ V : Type} [DecidableEq κ] (k : κ) (v : V)
    (l : List (κ × V)) : mapContains k (mapInsert k v l) = true := by
  rw [mapInsert]
  by_cases h : mapContains k l = true
  · rw [if_pos h]
    exact h
  · rw [if_neg h]
    rw [mapContains, mapFind_append_of_none k l _ (mapFind_eq_none_of_not_contains k l h),
      mapFind, if_pos rfl]
    rfl

/-- Inserting any key preserves the presence of every present key. -/
theorem mapContains_mapInsert_mono {κ V : Type} [DecidableEq κ] (k k2 : κ) (v : V)
    (l : List (κ × V)) (h : mapContains k l = true) :
    mapContains k (mapInsert k2 v l) = true := by
  rw [mapInsert]
  by_cases h2 : mapContains k2 l = true
  · rw [if_pos h2]
    exact h
  · rw [if_neg h2]
    obtain ⟨v0, hv0⟩ := Option.isSome_iff_exists.mp h
    rw [mapContains, mapFind_append_of_some k l _ v0 hv0]
    rfl

/-- The key of a member is present. -/
theorem mapContains_of_mem {κ V : Type} [DecidableEq κ] (p : κ × V)
    (l : List (κ × V)) (h : p ∈ l) : mapContains p.1 l = true := by
  induction l with
  | nil => cases h
  | cons q t ih =>
      rw [mapContains, mapFind]
      by_cases hq : q.1 = p.1
      · rw [if_pos hq]
        rfl
      · rw [if_neg hq]
        cases List.mem_cons.mp h with
        | inl he => exact absurd (he ▸ rfl) hq
        | inr ht => exact ih ht

/-- With key-unique entries, the lookup of the key of a member returns exactly
its value. -/
theorem mapFind_of_mem_nodup {κ V : Type} [DecidableEq κ] (p : κ × V)
    (l : List (κ × V)) (hnd : (l.map Prod.fst).Nodup) (h : p ∈ l) :
    mapFind p.1 l = some p.2 := by
  induction l with
  | nil => cases h
  | cons q t ih =>
      rw [mapFind]
      cases List.mem_cons.mp h with
      | inl he =>
          rw [he, if_pos rfl]
      | inr ht =>
          have hq : q.1 ≠ p.1 := by
            intro hc
            exact (List.nodup_cons.mp hnd).1 (hc ▸ List.mem_map_of_mem Prod.fst ht)
          rw [if_neg hq]
          exact ih (List.nodup_cons.mp hnd).2 ht

/-- Writing back a value the lookup already returns changes nothing. -/
theorem mapUpdate_find_eq {κ V : Type} [DecidableEq κ] (k : κ) (v : V)
    (l : List (κ × V)) (h : mapFind k l = some v) : mapUpdate k v l = l := by
  induction l with
  | nil => rfl
  | cons p t ih =>
      rw [mapFind] at h
      rw [mapUpdate]
      by_cases hp : p.1 = k
      · rw [if_pos hp] at h
        rw [if_pos hp]
        have hv : v = p.2 := by
          cases h
          rfl
        rw [hv]
      · rw [if_neg hp] at h
        rw [if_neg hp, ih h]

/-- A fold whose every step fixes the accumulator fixes it overall. -/
theorem foldl_id_of_noop {α β : Type} (f : α → β → α) (l : List β) :
    ∀ A : α, (∀ b ∈ l, f A b = A) → l.foldl f A = A := by
  induction l with
  | nil => intro A _; rfl
  | cons b t ih =>
      intro A h
      rw [List.foldl_cons, h b (List.mem_cons_self b t)]
      exact ih A (fun b2 hb2 => h b2 (List.mem_cons_of_mem b hb2))

/-- Presence of any key survives the name-insert fold. -/
theorem langFold_contains_mono (ls : List (LStr × LStr)) :
    ∀ (L : List (LStr × LStr)) (k : LStr), mapContains k L = true →
      mapContains k (langFold L ls) = true := by
  induction ls with
  | nil => exact fun L k h => h
  | cons p t ih =>
      intro L k h
      exact ih _ k (mapContains_mapInsert_mono k (toLowerStr p.1) p.2 L h)

/-- Every processed language tag is present after the name-insert fold. -/
theorem langFold_contains_of_mem (ls : List (LStr × LStr)) :
    ∀ (L : List (LStr × LStr)) (p : LStr × LStr), p ∈ ls →
      mapContains (toLowerStr p.1) (langFold L ls) = true := by
  induction ls with
  | nil => intro _ p hp; cases hp
  | cons q t ih =>
      intro L p hp
      cases List.mem_cons.mp hp with
      | inl he =>
          have : mapContains (toLowerStr p.1) (mapInsert (toLowerStr q.1) q.2 L) = true := by
            rw [he]
            exact mapContains_mapInsert_self (toLowerStr q.1) q.2 L
          exact langFold_contains_mono t _ _ this
      | inr ht => exact ih _ p ht

/-- Replaying the same name inserts a second time changes nothing. -/
theorem langFold_idem (ls : List (LStr × LStr)) :
    ∀ L : List (LStr × LStr), langFold (langFold L ls) ls = langFold L ls := by
  induction ls with
  | nil => intro L; rfl
  | cons p t ih =>
      intro L
      show langFold (mapInsert (toLowerStr p.1) p.2 (langFold (mapInsert (toLowerStr p.1) p.2 L) t)) t
        = langFold (mapInsert (toLowerStr p.1) p.2 L) t
      have hc : mapContains (toLowerStr p.1) (langFold (mapInsert (toLowerStr p.1) p.2 L) t) = true :=
        langFold_contains_mono t _ _ (mapContains_mapInsert_self (toLowerStr p.1) p.2 L)
      rw [mapInsert_of_contains _ p.2 _ hc]
      exact ih (mapInsert (toLowerStr p.1) p.2 L)

/-- Folding inserts whose keys are all already present changes nothing. -/
theorem langFold_self_noop (ls : List (LStr × LStr)) :
    ∀ L : List (LStr × LStr), (∀ p ∈ ls, mapContains (toLowerStr p.1) L = true) →
      langFold L ls = L := by
  induction ls with
  | nil => intro L _; rfl
  | cons p t ih =>
      intro L h
      show langFold (mapInsert (toLowerStr p.1) p.2 L) t = L
      rw [mapInsert_of_contains _ p.2 _ (h p (List.mem_cons_self p t))]
      exact ih L (fun q hq => h q (List.mem_cons_of_mem p hq))

/-- `setValue` leaves the measure unchanged when the year is present (the
local-copy bug of measure.cpp lines 175–190). -/
theorem setValue_noop (m : Measure) (y : Int) (v : ℚ)
    (h : mapContains y m.years = true) : m.setValue y v = m := by
  rw [Measure.setValue, if_pos h]

/-- After `setValue`, the year is present. -/
theorem setValue_contains_self (m : Measure) (y : Int) (v : ℚ) :
    mapContains y (m.setValue y v).years = true := by
  rw [Measure.setValue]
  by_cases h : mapContains y m.years = true
  · rw [if_pos h]
    exact h
  · rw [if_neg h]
    show mapContains y (m.years ++ [(y, v)]) = true
    rw [mapContains, mapFind_append_of_none y m.years _ (mapFind_eq_none_of_not_contains y m.years h),
      mapFind, if_pos rfl]
    rfl

/-- `setValue` preserves the presence of every present year. -/
theorem setValue_contains_mono (m : Measure) (y : Int) (v : ℚ) (z : Int)
    (h : mapContains z m.years = true) :
    mapContains z (m.setValue y v).years = true := by
  rw [Measure.setValue]
  by_cases hy : mapContains y m.years = true
  · rw [if_pos hy]
    exact h
  · rw [if_neg hy]
    obtain ⟨v0, hv0⟩ := Option.isSome_iff_exists.mp h
    show mapContains z (m.years ++ [(y, v)]) = true
    rw [mapContains, mapFind_append_of_some z m.years _ v0 hv0]
    rfl

/-- The inner loop of the measure merge preserves the presence of every
present year. -/
theorem innerFold_contains_mono (y : Int) (v : ℚ) (snap : List (Int × ℚ)) :
    ∀ (acc : Measure) (z : Int), mapContains z acc.years = true →
      mapContains z
        ((snap.foldl (fun a2 q => if y ≠ q.1 then a2.setValue y v else a2) acc).years)
        = true := by
  induction snap with
  | nil => intro acc z h; exact h
  | cons q t ih =>
      intro acc z h
      rw [List.foldl_cons]
      by_cases hy : y ≠ q.1
      · rw [if_pos hy]
        exact ih _ z (setValue_contains_mono acc y v z h)
      · rw [if_neg hy]
        exact ih _ z h

/-- The inner loop records its year as soon as some snapshot year differs. -/
theorem innerFold_contains_self (y : Int) (v : ℚ) (snap : List (Int × ℚ)) :
    ∀ acc : Measure, (∃ q ∈ snap, q.1 ≠ y) →
      mapContains y
        ((snap.foldl (fun a2 q => if y ≠ q.1 then a2.setValue y v else a2) acc).years)
        = true := by
  induction snap with
  | nil =>
      intro acc h
      obtain ⟨q, hq, _⟩ := h
      cases hq
  | cons q t ih =>
      intro acc h
      rw [List.foldl_cons]
      by_cases hy : y ≠ q.1
      · rw [if_pos hy]
        exact innerFold_contains_mono y v t _ y (setValue_contains_self acc y v)
      · rw [if_neg hy]
        obtain ⟨q0, hq0, hne0⟩ := h
        cases List.mem_cons.mp hq0 with
        | inl he =>
            have : y = q.1 := not_not.mp (by simpa using hy)
            exact absurd (this ▸ he ▸ rfl) hne0
        | inr ht => exact ih acc ⟨q0, ht, hne0⟩

/-- The inner loop is a no-op once its year is present (or no snapshot year
differs). -/
theorem innerFold_noop (y : Int) (v : ℚ) (snap : List (Int × ℚ)) :
    ∀ acc : Measure, ((∃ q ∈ snap, q.1 ≠ y) → mapContains y acc.years = true) →
      snap.foldl (fun a2 q => if y ≠ q.1 then a2.setValue y v else a2) acc = acc := by
  induction snap with
  | nil => intro acc _; rfl
  | cons q t ih =>
      intro acc h
      rw [List.foldl_cons]
      by_cases hy : y ≠ q.1
      · have hc : mapContains y acc.years = true :=
          h ⟨q, List.mem_cons_self q t, fun hc => hy hc.symm⟩
        rw [if_pos hy, setValue_noop acc y v hc]
        exact ih acc (fun _ => hc)
      · rw [if_neg hy]
        exact ih acc (fun ⟨q0, hq0, hne0⟩ => h ⟨q0, List.mem_cons_of_mem q hq0, hne0⟩)

/-- The outer merge loop preserves the presence of every present year. -/
theorem outerFold_contains_mono (snap pairs : List (Int × ℚ)) :
    ∀ (acc : Measure) (z : Int), mapContains z acc.years = true →
      mapContains z
        ((pairs.foldl
            (fun acc p =>
              snap.foldl (fun a2 q => if p.1 ≠ q.1 then a2.setValue p.1 p.2 else a2) acc)
            acc).years)
        = true := by
  induction pairs with
  | nil => intro acc z h; exact h
  | cons r t ih =>
      intro acc z h
      rw [List.foldl_cons]
      exact ih _ z (innerFold_contains_mono r.1 r.2 snap acc z h)

/-- The outer merge loop records every processed year for which some snapshot
year differs. -/
theorem outerFold_contains_of_mem (snap pairs : List (Int × ℚ)) :
    ∀ (acc : Measure) (p : Int × ℚ), p ∈ pairs → (∃ q ∈ snap, q.1 ≠ p.1) →
      mapContains p.1
        ((pairs.foldl
            (fun acc p =>
              snap.foldl (fun a2 q => if p.1 ≠ q.1 then a2.setValue p.1 p.2 else a2) acc)
            acc).years)
        = true := by
  induction pairs with
  | nil => intro _ p hp _; cases hp
  | cons r t ih =>
      intro acc p hp hex
      rw [List.foldl_cons]
      cases List.mem_cons.mp hp with
      | inl he =>
          have : mapContains p.1
              ((snap.foldl (fun a2 q => if r.1 ≠ q.1 then a2.setValue r.1 r.2 else a2)
                  acc).years) = true := by
            rw [he]
            exact innerFold_contains_self r.1 r.2 snap acc (he ▸ hex)
          exact outerFold_contains_mono snap t _ p.1 this
      | inr ht => exact ih _ p ht hex

/-- The outer merge loop is a no-op when every year it would record is
already present. -/
theorem outerFold_noop (snap pairs : List (Int × ℚ)) :
    ∀ acc : Measure,
      (∀ p ∈ pairs, (∃ q ∈ snap, q.1 ≠ p.1) → mapContains p.1 acc.years = true) →
      pairs.foldl
          (fun acc p =>
            snap.foldl (fun a2 q => if p.1 ≠ q.1 then a2.setValue p.1 p.2 else a2) acc)
          acc
        = acc := by
  induction pairs with
  | nil => intro acc _; rfl
  | cons r t ih =>
      intro acc h
      rw [List.foldl_cons, innerFold_noop r.1 r.2 snap acc (h r (List.mem_cons_self r t))]
      exact ih acc (fun p hp => h p (List.mem_cons_of_mem r hp))

/-- A merge into a measure with no stored years does nothing (the inner loop
has nothing to compare against). -/
theorem mergeLoop_empty (stored incoming : Measure) (h : stored.years = []) :
    stored.mergeLoop incoming = stored := by
  show incoming.years.foldl
      (fun acc p =>
        stored.years.foldl (fun a2 q => if p.1 ≠ q.1 then a2.setValue p.1 p.2 else a2) acc)
      stored = stored
  refine outerFold_noop stored.years incoming.years stored ?_
  intro p hp hex
  obtain ⟨q, hq, _⟩ := hex
  rw [h] at hq
  cases hq

/-- Replaying the nested merge loops of `Area::setMeasure` a second time with
the same incoming measure changes nothing. -/
theorem mergeLoop_idem (stored incoming : Measure) :
    (stored.mergeLoop incoming).mergeLoop incoming = stored.mergeLoop incoming := by
  show incoming.years.foldl
      (fun acc p =>
        (stored.mergeLoop incoming).years.foldl
          (fun a2 q => if p.1 ≠ q.1 then a2.setValue p.1 p.2 else a2) acc)
      (stored.mergeLoop incoming) = stored.mergeLoop incoming
  refine outerFold_noop _ incoming.years _ ?_
  intro p hp hex
  by_cases hst : stored.years = []
  · rw [mergeLoop_empty stored incoming hst] at hex
    obtain ⟨q, hq, _⟩ := hex
    rw [hst] at hq
    cases hq
  · by_cases hex0 : ∃ q ∈ stored.years, q.1 ≠ p.1
    · exact outerFold_contains_of_mem stored.years incoming.years stored p hp hex0
    · push_neg at hex0
      obtain ⟨q0, t0, hq0⟩ := List.exists_cons_of_ne_nil hst
      have hq0mem : q0 ∈ stored.years := by
        rw [hq0]
        exact List.mem_cons_self q0 t0
      have hcont : mapContains p.1 stored.years = true := by
        rw [hq0, mapContains, mapFind, if_pos (hex0 q0 hq0mem)]
        rfl
      exact outerFold_contains_mono stored.years incoming.years stored p.1 hcont

/-- After `setMeasureMap`, the lowercased key maps to a value that is either
the incoming measure itself (fresh insert, or an `==` early return) or the
result of merging it into some previously stored measure. -/
theorem setMeasureMap_find_self (ms : List (LStr × Measure)) (key : LStr) (measure : Measure) :
    ∃ r, mapFind (toLowerStr key) (setMeasureMap ms key measure) = some r ∧
      (r = measure ∨ ∃ m0, r = Measure.mergeLoop m0 measure) := by
  cases hfk : mapFind (toLowerStr key) ms with
  | some stored =>
      by_cases heq : stored = measure
      · refine ⟨stored, ?_, Or.inl heq⟩
        rw [setMeasureMap]
        simp only [hfk, heq, eq_self_iff_true, if_true]
      · refine ⟨stored.mergeLoop measure, ?_, Or.inr ⟨stored, rfl⟩⟩
        rw [setMeasureMap]
        simp only [hfk, if_neg heq]
        exact mapFind_mapUpdate_self (toLowerStr key) _ ms (by rw [mapContains, hfk]; rfl)
  | none =>
      refine ⟨measure, ?_, Or.inl rfl⟩
      rw [setMeasureMap]
      simp only [hfk]
      rw [mapFind_append_of_none (toLowerStr key) ms _ hfk, mapFind, if_pos rfl]

/-- `setMeasureMap` leaves the lookup of every other key unchanged. -/
theorem setMeasureMap_find_ne (ms : List (LStr × Measure)) (key : LStr) (measure : Measure)
    (k2 : LStr) (h : k2 ≠ toLowerStr key) :
    mapFind k2 (setMeasureMap ms key measure) = mapFind k2 ms := by
  cases hfk : mapFind (toLowerStr key) ms with
  | some stored =>
      by_cases heq : stored = measure
      · rw [setMeasureMap]
        simp only [hfk, heq, eq_self_iff_true, if_true]
      · rw [setMeasureMap]
        simp only [hfk, if_neg heq]
        exact mapFind_mapUpdate_ne k2 (toLowerStr key) _ ms h
  | none =>
      rw [setMeasureMap]
      simp only [hfk]
      cases hf2 : mapFind k2 ms with
      | some v => exact mapFind_append_of_some k2 ms _ v hf2
      | none =>
          rw [mapFind_append_of_none k2 ms _ hf2, mapFind, if_neg (fun hc => h hc.symm)]
          rfl

/-- Applying `setMeasureMap` again, with the same key and measure, to a map
whose entry at the lowercased key already is a post-merge value, changes
nothing. -/
theorem setMeasureMap_reapply (B : List (LStr × Measure)) (key : LStr) (measure : Measure)
    (r : Measure) (hf : mapFind (toLowerStr key) B = some r)
    (hr : r = measure ∨ ∃ m0, r = Measure.mergeLoop m0 measure) :
    setMeasureMap B key measure = B := by
  rw [setMeasureMap]
  simp only [hf]
  by_cases heq : r = measure
  · rw [if_pos heq]
  · rw [if_neg heq]
    obtain ⟨m0, hm0⟩ := hr.resolve_left heq
    have hrm : r.mergeLoop measure = r := by
      rw [hm0]
      exact mergeLoop_idem m0 measure
    rw [hrm]
    exact mapUpdate_find_eq (toLowerStr key) r B hf

/-- The measure-merge fold leaves the lookup of a key untouched by any of its
entries unchanged. -/
theorem measFold_find_ne (rest : List (LStr × Measure)) (k : LStr)
    (h : ∀ p ∈ rest, toLowerStr p.1 ≠ k) :
    ∀ B : List (LStr × Measure), mapFind k (measFold B rest) = mapFind k B := by
  induction rest with
  | nil => intro B; rfl
  | cons p t ih =>
      intro B
      show mapFind k (measFold (setMeasureMap B p.1 p.2) t) = mapFind k B
      rw [ih (fun q hq => h q (List.mem_cons_of_mem p hq)) (setMeasureMap B p.1 p.2)]
      exact setMeasureMap_find_ne B p.1 p.2 k
        (fun hc => h p (List.mem_cons_self p t) hc.symm)

/-- Replaying the whole measure-merge fold a second time, with entries whose
lowercased keys are pairwise distinct, changes nothing. -/
theorem measFold_idem (ms : List (LStr × Measure))
    (hnd : (ms.map (fun p => toLowerStr p.1)).Nodup) :
    ∀ A : List (LStr × Measure), measFold (measFold A ms) ms = measFold A ms := by
  induction ms with
  | nil => intro A; rfl
  | cons c rest ih =>
      intro A
      have hhead : toLowerStr c.1 ∉ rest.map (fun p => toLowerStr p.1) :=
        (List.nodup_cons.mp hnd).1
      have htail : (rest.map (fun p => toLowerStr p.1)).Nodup := (List.nodup_cons.mp hnd).2
      have hne : ∀ p ∈ rest, toLowerStr p.1 ≠ toLowerStr c.1 := by
        intro p hp hc
        exact hhead (hc ▸ List.mem_map_of_mem (fun p => toLowerStr p.1) hp)
      show measFold (setMeasureMap (measFold (setMeasureMap A c.1 c.2) rest) c.1 c.2) rest
        = measFold (setMeasureMap A c.1 c.2) rest
      obtain ⟨r, hr, hrpost⟩ := setMeasureMap_find_self A c.1 c.2
      have hQfind : mapFind (toLowerStr c.1) (measFold (setMeasureMap A c.1 c.2) rest)
          = some r := by
        rw [measFold_find_ne rest (toLowerStr c.1) hne (setMeasureMap A c.1 c.2)]
        exact hr
      rw [setMeasureMap_reapply _ c.1 c.2 r hQfind hrpost]
      exact ih htail (setMeasureMap A c.1 c.2)

/-- The measure-merging loop of `Areas::setArea` only rewrites the measures
field, by the `measFold` of the incoming entries. -/
theorem mergeMeasures_measures (ms : List (LStr × Measure)) :
    ∀ ar : Area, mergeMeasures ar ms = { ar with measures := measFold ar.measures ms } := by
  induction ms with
  | nil => intro ar; rfl
  | cons p t ih =>
      intro ar
      show mergeMeasures (ar.setMeasure p.1 p.2) t
        = { ar with measures := measFold ar.measures (p :: t) }
      rw [ih (ar.setMeasure p.1 p.2)]
      rfl

/-- With valid three-letter alphabetic language tags, the name-merging loop
of `Areas::setArea` throws nothing and reduces to the name-insert fold. -/
theorem mergeNames_ok (ls : List (LStr × LStr))
    (h : ∀ p ∈ ls, p.1.length = 3 ∧ p.1.all isAlphaChar = true) :
    ∀ ar : Area, mergeNames ar ls = ({ ar with languages := langFold ar.languages ls }, none) := by
  induction ls with
  | nil => intro ar; rfl
  | cons p t ih =>
      intro ar
      have hset : ar.setName p.1 p.2
          = Except.ok { ar with languages := mapInsert (toLowerStr p.1) p.2 ar.languages } := by
        rw [Area.setName,
          if_neg (by rw [(h p (List.mem_cons_self p t)).1]; exact fun hc => hc rfl),
          if_neg (by rw [(h p (List.mem_cons_self p t)).2]; exact Bool.false_ne_true)]
      show (match ar.setName p.1 p.2 with
        | Except.ok ar2 => mergeNames ar2 t
        | Except.error e => (ar, some e))
        = ({ ar with languages := langFold ar.languages (p :: t) }, none)
      rw [hset]
      show mergeNames { ar with languages := mapInsert (toLowerStr p.1) p.2 ar.languages } t
        = ({ ar with languages := langFold ar.languages (p :: t) }, none)
      rw [ih (fun q hq => h q (List.mem_cons_of_mem p hq))]
      rfl

/-- `Areas::setArea` on a present key, with valid incoming language tags:
no exception, and the stored area is merged by the name-insert fold and the
measure-merge fold. -/
theorem setArea_merge (s : AreasContainer) (k : LStr) (a b : Area)
    (hb : mapFind k s = some b)
    (hl : ∀ p ∈ a.languages, p.1.length = 3 ∧ p.1.all isAlphaChar = true) :
    Areas.setArea s k a
      = (mapUpdate k
          { b with languages := langFold b.languages a.languages,
                   measures := measFold b.measures a.measures } s, none) := by
  rw [Areas.setArea]
  simp only [hb]
  rw [mergeNames_ok a.languages hl b]
  show (mapUpdate k
      (mergeMeasures { b with languages := langFold b.languages a.languages } a.measures) s,
    none) = _
  rw [mergeMeasures_measures a.measures { b with languages := langFold b.languages a.languages }]

/-- `Areas::setArea` with fragments already stored identically (lowercased
measure keys with no duplicates, valid lowercase language tags): the
collection is unchanged and nothing is thrown. -/
theorem setArea_self (s : AreasContainer) (k : LStr) (a : Area)
    (hm : ∀ p ∈ a.measures, toLowerStr p.1 = p.1)
    (hnd : (a.measures.map Prod.fst).Nodup)
    (hl : ∀ p ∈ a.languages,
      p.1.length = 3 ∧ p.1.all isAlphaChar = true ∧ toLowerStr p.1 = p.1)
    (ha : mapFind k s = some a) :
    Areas.setArea s k a = (s, none) := by
  rw [setArea_merge s k a a ha (fun p hp => ⟨(hl p hp).1, (hl p hp).2.1⟩)]
  have hLF : langFold a.languages a.languages = a.languages := by
    refine langFold_self_noop a.languages a.languages ?_
    intro p hp
    rw [(hl p hp).2.2]
    exact mapContains_of_mem p a.languages hp
  have hMF : measFold a.measures a.measures = a.measures := by
    refine foldl_id_of_noop _ a.measures a.measures ?_
    intro p hp
    rw [setMeasureMap]
    rw [show toLowerStr p.1 = p.1 from hm p hp]
    rw [mapFind_of_mem_nodup p a.measures hnd hp]
    simp only [eq_self_iff_true, if_true]
  rw [hLF, hMF]
  rw [show ({ a with languages := a.languages, measures := a.measures } : Area) = a from rfl]
  rw [mapUpdate_find_eq k a s ha]

/-- Claim C4: upserting the same decoded fragments twice yields the same
final collection as upserting them once, and merging an Area with an
identical stored copy of itself leaves the collection unchanged (and throws
nothing).  The hypotheses state the invariants every parser-decoded fragment
satisfies: measure keys are lowercase and duplicate-free (Area::setMeasure
lowercases them and std::map keys are unique), and language tags are valid
lowercase three-letter alphabetic codes ("eng"/"cym", as Area::setName
enforces). -/
theorem C4_reingest_is_idempotent (s : AreasContainer) (k : LStr) (a : Area)
    (hm : ∀ p ∈ a.measures, toLowerStr p.1 = p.1)
    (hnd : (a.measures.map Prod.fst).Nodup)
    (hl : ∀ p ∈ a.languages,
      p.1.length = 3 ∧ p.1.all isAlphaChar = true ∧ toLowerStr p.1 = p.1) :
    (Areas.setArea s k a).2 = none ∧
    Areas.setArea (Areas.setArea s k a).1 k a = Areas.setArea s k a ∧
    (mapFind k s = some a → Areas.setArea s k a = (s, none)) := by
  have hl2 : ∀ p ∈ a.languages, p.1.length = 3 ∧ p.1.all isAlphaChar = true :=
    fun p hp => ⟨(hl p hp).1, (hl p hp).2.1⟩
  have hndl : (a.measures.map (fun p => toLowerStr p.1)).Nodup := by
    rw [List.map_congr_left (fun p hp => hm p hp)]
    exact hnd
  refine ⟨?_, ?_, fun ha => setArea_self s k a hm hnd hl ha⟩
  · cases hb : mapFind k s with
    | some b => rw [setArea_merge s k a b hb hl2]
    | none =>
        rw [Areas.setArea]
        simp only [hb]
  · cases hb : mapFind k s with
    | none =>
        have h1 : Areas.setArea s k a = (s ++ [(k, a)], none) := by
          rw [Areas.setArea]
          simp only [hb]
        rw [h1]
        have ha2 : mapFind k (s ++ [(k, a)]) = some a := by
          rw [mapFind_append_of_none k s _ hb, mapFind, if_pos rfl]
        exact setArea_self _ k a hm hnd hl ha2
    | some b =>
        rw [setArea_merge s k a b hb hl2]
        have hfind : mapFind k
            (mapUpdate k
              { b with languages := langFold b.languages a.languages,
                       measures := measFold b.measures a.measures } s)
            = some { b with languages := langFold b.languages a.languages,
                            measures := measFold b.measures a.measures } :=
          mapFind_mapUpdate_self k _ s (by rw [mapContains, hb]; rfl)
        rw [setArea_merge _ k a _ hfind hl2]
        show (mapUpdate k
            { b with
              languages := langFold (langFold b.languages a.languages) a.languages,
              measures := measFold (measFold b.measures a.measures) a.measures }
            (mapUpdate k
              { b with
                languages := langFold b.languages a.languages,
                measures := measFold b.measures a.measures } s), none)
          = (mapUpdate k
              { b with
                languages := langFold b.languages a.languages,
                measures := measFold b.measures a.measures } s, none)
        rw [langFold_idem a.languages b.languages, measFold_idem a.measures hndl b.measures]
        rw [mapUpdate_find_eq k _ _ hfind]

/-- Witness for `C4_reingest_is_idempotent`: a decoded fragment with one
English name and one population measure, upserted into the empty collection. -/
theorem C4_reingest_is_idempotent_witness :
    ((∀ p ∈ ({ Area.create (("W06000001").toList) with
          languages := [((("eng").toList), (("Anglesey").toList))],
          measures := [((("pop").toList), exC3Old)] } : Area).measures,
        toLowerStr p.1 = p.1) ∧
      (({ Area.create (("W06000001").toList) with
          languages := [((("eng").toList), (("Anglesey").toList))],
          measures := [((("pop").toList), exC3Old)] } : Area).measures.map Prod.fst).Nodup ∧
      (∀ p ∈ ({ Area.create (("W06000001").toList) with
          languages := [((("eng").toList), (("Anglesey").toList))],
          measures := [((("pop").toList), exC3Old)] } : Area).languages,
        p.1.length = 3 ∧ p.1.all isAlphaChar = true ∧ toLowerStr p.1 = p.1)) ∧
    ((Areas.setArea [] (("W06000001").toList)
        ({ Area.create (("W06000001").toList) with
          languages := [((("eng").toList), (("Anglesey").toList))],
          measures := [((("pop").toList), exC3Old)] } : Area)).2 = none ∧
      Areas.setArea
          (Areas.setArea [] (("W06000001").toList)
            ({ Area.create (("W06000001").toList) with
              languages := [((("eng").toList), (("Anglesey").toList))],
              measures := [((("pop").toList), exC3Old)] } : Area)).1
          (("W06000001").toList)
          ({ Area.create (("W06000001").toList) with
            languages := [((("eng").toList), (("Anglesey").toList))],
            measures := [((("pop").toList), exC3Old)] } : Area)
        = Areas.setArea [] (("W06000001").toList)
            ({ Area.create (("W06000001").toList) with
              languages := [((("eng").toList), (("Anglesey").toList))],
              measures := [((("pop").toList), exC3Old)] } : Area) ∧
      (mapFind (("W06000001").toList) ([] : AreasContainer)
          = some ({ Area.create (("W06000001").toList) with
              languages := [((("eng").toList), (("Anglesey").toList))],
              measures := [((("pop").toList), exC3Old)] } : Area) →
        Areas.setArea [] (("W06000001").toList)
            ({ Area.create (("W06000001").toList) with
              languages := [((("eng").toList), (("Anglesey").toList))],
              measures := [((("pop").toList), exC3Old)] } : Area)
          = ([], none))) :=
  ⟨⟨by decide, by decide, by decide⟩,
   C4_reingest_is_idempotent [] (("W06000001").toList)
     ({ Area.create (("W06000001").toList) with
        languages := [((("eng").toList), (("Anglesey").toList))],
        measures := [((("pop").toList), exC3Old)] } : Area)
     (by decide) (by decide) (by decide)⟩

/-- Witness for the universally quantified part of
`C8_region_filter_accept_iff`, at the Anglesey row. -/
theorem C8_region_filter_accept_iff_witness :
    acceptRefRow [(("anglesey").toList)] (("W06000001").toList)
        (("Isle of Anglesey").toList) (("Ynys Môn").toList) = true ↔
      (([(("anglesey").toList)] : List LStr) = [] ∨
        ∃ t ∈ ([(("anglesey").toList)] : List LStr),
          occurs t (toLowerStr (("Isle of Anglesey").toList)) = true ∨
          occurs t (toLowerStr (("Ynys Môn").toList)) = true ∨
          (("W06000001").toList) = t) :=
  C8_region_filter_accept_iff.1 [(("anglesey").toList)] (("W06000001").toList)
    (("Isle of Anglesey").toList) (("Ynys Môn").toList)
